import Mathlib

/-!
Shallow embedding of `src/charts/xytime.rs` (`XyTimeData`, an animatable 2D
line chart with a wall-clock playback cursor).

Coordinates, timestamps and wall-clock instants are modelled as rationals.
`Instant::duration_since` saturates at zero, which `durationSince` mirrors.
Operations that can panic in Rust (`unwrap` on an empty series,
`Duration::from_secs_f32` applied to a negative number) return `Option`,
with `none` standing for the panic.
-/

set_option maxRecDepth 1000

namespace XyTime

/-- MIN_DELTA, the epsilon floor: `const MIN_DELTA: f32 = 0.000_010`. -/
def MIN_DELTA : ℚ := 1 / 100000

/-- f32::MAX as an exact rational, the initial accumulator of the running
minima in the constructor's bounds loop. -/
def F32_MAX : ℚ := 340282346638528859811704183484516925440

/-- f32::MIN = -f32::MAX, the initial accumulator of the running maxima. -/
def F32_MIN : ℚ := -340282346638528859811704183484516925440

/-- Model of `Instant::duration_since`: the elapsed time from `b` to `a`,
saturating at zero when `b` is later than `a`. -/
def durationSince (a b : ℚ) : ℚ := max (a - b) 0

/-- The mutable playback fields of `XyTimeData`: `playback_start`,
`pause_start` (both `Option<Instant>`) and `playback_speed`. -/
structure XyTimeState where
  playback_start : Option ℚ
  pause_start : Option ℚ
  playback_speed : ℚ
deriving DecidableEq

/-- The derived, post-construction read-only series of `XyTimeData`
(`points`, `ranges`, `times`) together with the playback state. A range is
a pair `(start, end)` of a Rust `Range<f32>`; `ranges[i]` holds the x range
and the y range over `points[0..=i]`. -/
structure XyTimeData where
  points : List (ℚ × ℚ)
  ranges : List ((ℚ × ℚ) × (ℚ × ℚ))
  times : List ℚ
  state : XyTimeState
deriving DecidableEq

/-- The constructor's stable sort of the raw samples by their time
component (`points.sort_by` on the third tuple field). -/
def sortedSamples (pts : List (ℚ × ℚ × ℚ)) : List (ℚ × ℚ × ℚ) :=
  List.insertionSort (fun a b => a.2.2 ≤ b.2.2) pts

/-- The `times` series: time components of the sorted samples. -/
def mkTimes (pts : List (ℚ × ℚ × ℚ)) : List ℚ :=
  (sortedSamples pts).map fun p => p.2.2

/-- The `points` series: xy components of the sorted samples. -/
def mkPoints (pts : List (ℚ × ℚ × ℚ)) : List (ℚ × ℚ) :=
  (sortedSamples pts).map fun p => (p.1, p.2.1)

/-- The constructor's bounds loop: running min/max of x and y, pushing the
accumulated `(range_x, range_y)` after folding in each point. Arguments
after the list are the accumulators `min_x min_y max_x max_y`. -/
def rangesGo : List (ℚ × ℚ) → ℚ → ℚ → ℚ → ℚ → List ((ℚ × ℚ) × (ℚ × ℚ))
  | [], _, _, _, _ => []
  | (x, y) :: rest, min_x, min_y, max_x, max_y =>
    ((min min_x x, max max_x x), (min min_y y, max max_y y)) ::
      rangesGo rest (min min_x x) (min min_y y) (max max_x x) (max max_y y)

/-- The `ranges` series produced by `XyTimeData::new`. -/
def mkRanges (pts : List (ℚ × ℚ × ℚ)) : List ((ℚ × ℚ) × (ℚ × ℚ)) :=
  rangesGo (mkPoints pts) F32_MAX F32_MAX F32_MIN F32_MIN

/-- Model of `XyTimeData::new`: sorts the samples by time, derives the
three series, and builds the initial state (no playback, speed 1). The
source calls `ranges.last().unwrap()` to build the render config, which
panics on an empty input; `none` models that panic. -/
def new (pts : List (ℚ × ℚ × ℚ)) : Option XyTimeData :=
  match (mkRanges pts).getLast? with
  | none => none
  | some _ =>
    some { points := mkPoints pts
           ranges := mkRanges pts
           times := mkTimes pts
           state := { playback_start := none, pause_start := none, playback_speed := 1 } }

/-- Overflow threshold of `Duration::from_secs_f32`: 2^64 seconds, written
as a literal; a `Duration` holds at most `u64::MAX` whole seconds, and the
conversion panics at or beyond this bound (f32-representable values jump
from `2^64 - 2^40`, which fits, to `2^64`, which panics). -/
def DURATION_OVERFLOW : ℚ := 18446744073709551616

/-- Model of `set_time` (seek), whose first line is
`Instant::now() - Duration::from_secs_f32(time)`. Instants are modelled as
seconds since the monotonic clock's epoch, so that expression panics —
modelled by `none` — in two ways: `Duration::from_secs_f32` panics when
`time` is negative or overflows a `Duration` (2^64 seconds or more), and
`Instant - Duration` panics when the result falls before the epoch, i.e.
when `now - time < 0`. Otherwise: if playback was started, the pause
instant (when present) is refreshed to `now` and the start instant is
rebased; if stopped, the start instant is rebased and the chart becomes
paused at `now`. -/
def set_time (now time : ℚ) (s : XyTimeState) : Option XyTimeState :=
  if time < 0 ∨ DURATION_OVERFLOW ≤ time then none
  else if now - time < 0 then none
  else
    let start_time := some (now - time)
    match s.playback_start with
    | some _ =>
      some { s with
             pause_start := match s.pause_start with
               | some _ => some now
               | none => s.pause_start
             playback_start := start_time }
    | none =>
      some { s with playback_start := start_time, pause_start := some now }

/-- Model of `set_playback_speed`: stores the multiplier. -/
def set_playback_speed (speed : ℚ) (s : XyTimeState) : XyTimeState :=
  { s with playback_speed := speed }

/-- Model of `start_playback`: begin running now, unpaused. -/
def start_playback (now : ℚ) (s : XyTimeState) : XyTimeState :=
  { s with playback_start := some now, pause_start := none }

/-- Model of `stop_playback`: clear both instants. -/
def stop_playback (s : XyTimeState) : XyTimeState :=
  { s with playback_start := none, pause_start := none }

/-- Model of `toggle_playback`: if paused, resume by advancing the start
instant by the time spent paused; if playing, pause now; if stopped,
start. -/
def toggle_playback (now : ℚ) (s : XyTimeState) : XyTimeState :=
  match s.playback_start with
  | some playback_start =>
    match s.pause_start with
    | some pause_start =>
      { s with pause_start := none
               playback_start := some (playback_start + durationSince now pause_start) }
    | none => { s with pause_start := some now }
  | none => start_playback now s

/-- Model of `is_playing`:
`self.playback_start != None && self.pause_start == None`. -/
def is_playing (s : XyTimeState) : Bool :=
  s.playback_start.isSome && s.pause_start.isNone

/-- Model of `start_time`: `*self.times.first().unwrap()`; `none` models
the panic on an empty series. -/
def start_time (d : XyTimeData) : Option ℚ := d.times.head?

/-- Model of `end_time`: `*self.times.last().unwrap()`; `none` models the
panic on an empty series. -/
def end_time (d : XyTimeData) : Option ℚ := d.times.getLast?

/-- Model of `current_time`, the mutating read: returns the reported
position and the (possibly stopped) successor object. While the
speed-scaled elapsed time plus `MIN_DELTA` stays strictly below the
timeline span the position is that delta added to the timeline start;
otherwise the read clears `playback_start` and returns the timeline end.
When stopped it returns the timeline start. -/
def current_time (now : ℚ) (d : XyTimeData) : Option (ℚ × XyTimeData) :=
  match d.state.playback_start with
  | some playback_start =>
    match start_time d, end_time d with
    | some time_start, some time_end =>
      let base_delta := time_end - time_start
      let current_delta := MIN_DELTA + d.state.playback_speed *
        (match d.state.pause_start with
         | some pause_start => durationSince pause_start playback_start
         | none => durationSince now playback_start)
      if base_delta > current_delta then
        some (current_delta + time_start, d)
      else
        some (time_end, { d with state := { d.state with playback_start := none } })
    | _, _ => none
  | none => (start_time d).map fun time_start => (time_start, d)

/-- Loop of Rust's branchless `slice::binary_search_by` (`base`/`size`
halving); the extra fuel argument only makes the recursion structural and
is passed the initial `size`, which bounds the iteration count. -/
def binarySearchGo (xs : List ℚ) (t : ℚ) : ℕ → ℕ → ℕ → ℕ
  | 0, base, _ => base
  | fuel + 1, base, size =>
    if size ≤ 1 then base
    else
      let half := size / 2
      let base' := if compare (xs.getD (base + half) 0) t = Ordering.gt then base
                   else base + half
      binarySearchGo xs t fuel base' (size - half)

/-- Model of `slice::binary_search_by` with the comparator
`probe.partial_cmp(&time).unwrap_or(Ordering::Equal)` (on rationals the
comparison is total): `Except.ok` is `Ok(index)` at a matching element,
`Except.error` is `Err(insertion_point)`. -/
def binary_search_by (xs : List ℚ) (t : ℚ) : Except ℕ ℕ :=
  if xs.length = 0 then Except.error 0
  else
    let base := binarySearchGo xs t xs.length 0 xs.length
    match compare (xs.getD base 0) t with
    | Ordering.eq => Except.ok base
    | Ordering.lt => Except.error (base + 1)
    | Ordering.gt => Except.error base

/-- The index computation in `draw`:
`Ok(index) => index, Err(index) => self.points.len().min(index)`. -/
def time_index (d : XyTimeData) (t : ℚ) : ℕ :=
  match binary_search_by d.times t with
  | Except.ok index => index
  | Except.error index => min d.points.length index

/-- The animation path of `draw`: when playback is enabled it reads
`current_time` (mutating the object) and derives the index used for the
prefix slice `points[..=index]` and the access `ranges[index]`; `none`
when playback is disabled (no index is computed) or the read panics. -/
def drawIndex (now : ℚ) (d : XyTimeData) : Option ℕ :=
  match d.state.playback_start with
  | none => none
  | some _ => (current_time now d).map fun p => time_index p.2 p.1

/-- States reachable from construction through the public operations, each
invoked at a wall-clock instant that never decreases (Rust's `Instant` is
monotone). A `seek` step exists only when `set_time` returns (does not
panic), and a `read` step records the state left behind by the mutating
read `current_time`. -/
inductive Reachable : ℚ → XyTimeState → Prop where
  | construct (now : ℚ) : Reachable now ⟨none, none, 1⟩
  | seek (now : ℚ) (s : XyTimeState) (now' t : ℚ) (s' : XyTimeState) :
      Reachable now s → now ≤ now' → set_time now' t s = some s' → Reachable now' s'
  | start (now : ℚ) (s : XyTimeState) (now' : ℚ) :
      Reachable now s → now ≤ now' → Reachable now' (start_playback now' s)
  | stop (now : ℚ) (s : XyTimeState) (now' : ℚ) :
      Reachable now s → now ≤ now' → Reachable now' (stop_playback s)
  | toggle (now : ℚ) (s : XyTimeState) (now' : ℚ) :
      Reachable now s → now ≤ now' → Reachable now' (toggle_playback now' s)
  | speed (now : ℚ) (s : XyTimeState) (now' f : ℚ) :
      Reachable now s → now ≤ now' → Reachable now' (set_playback_speed f s)
  | read (now : ℚ) (s : XyTimeState) (now' : ℚ) (d : XyTimeData) (r : ℚ) (d' : XyTimeData) :
      Reachable now s → now ≤ now' → d.state = s → current_time now' d = some (r, d') →
      Reachable now' d'.state

/-- The playback-state invariant that actually holds: every stored instant
is at most the current wall clock, and whenever both instants are present
the pause instant is at least the start instant. -/
def StateInv (now : ℚ) (s : XyTimeState) : Prop :=
  (∀ t0, s.playback_start = some t0 → t0 ≤ now) ∧
  (∀ tp, s.pause_start = some tp → tp ≤ now) ∧
  (∀ t0 tp, s.playback_start = some t0 → s.pause_start = some tp → t0 ≤ tp)

/-- The chart of the running example, as a concrete value. -/
def exampleChart : XyTimeData :=
  { points := [(0, 0), (1, 1), (2, 0)]
    ranges := [((0, 0), (0, 0)), ((0, 1), (0, 1)), ((0, 2), (0, 1))]
    times := [0, 1, 2]
    state := { playback_start := none, pause_start := none, playback_speed := 1 } }

/-- The spec's running example, queried through the index computation of
`draw` (`exampleChart` is exactly `new [(0,0,0), (1,1,1), (2,0,2)]`). -/
def queryIndexAt (t : ℚ) : Option ℕ :=
  (new [(0, 0, 0), (1, 1, 1), (2, 0, 2)]).map fun d => time_index d t

/-- A two-sample chart spanning times 0 to 10, used by concrete playback
scenarios. -/
def spanChart : XyTimeData :=
  { points := [(0, 0), (1, 1)]
    ranges := [((0, 0), (0, 0)), ((0, 1), (0, 1))]
    times := [0, 10]
    state := { playback_start := none, pause_start := none, playback_speed := 1 } }

/-- Position reported at wall clock 1 after starting playback at wall
clock 0 on the 0..10 chart and then setting the speed factor to `f`. -/
def readAtSpeed (f : ℚ) : Option ℚ :=
  (current_time 1
      { spanChart with
        state := set_playback_speed f (start_playback 0 spanChart.state) }).map Prod.fst

/-- Position reported right after seeking to time 1 at wall clock 10 on
the 0..10 chart with speed factor 2. -/
def seekReadPosition : Option ℚ :=
  (set_time 10 1 (set_playback_speed 2 spanChart.state)).bind fun s =>
    (current_time 10 { spanChart with state := s }).map Prod.fst

/-- The elapsed-duration match inside `current_time`, factored out: frozen
at the pause instant when paused, live against `now` otherwise. -/
def pauseElapsed (now : ℚ) (s : XyTimeState) (playback_start : ℚ) : ℚ :=
  match s.pause_start with
  | some pause_start => durationSince pause_start playback_start
  | none => durationSince now playback_start

/-- A chart value with an empty series (never produced by `new`). -/
def emptyChart : XyTimeData :=
  { points := [], ranges := [], times := [],
    state := { playback_start := none, pause_start := none, playback_speed := 1 } }

/-- The running example chart, playing since wall clock 0 at speed 1. -/
def playingChart : XyTimeData :=
  { exampleChart with state := ⟨some 0, none, 1⟩ }

/-- Endpoint-wise containment of a pair `(x_range, y_range)` of ranges in
another: the outer x and y ranges each contain the inner ones. -/
def rangeContains (outer inner : (ℚ × ℚ) × (ℚ × ℚ)) : Prop :=
  outer.1.1 ≤ inner.1.1 ∧ inner.1.2 ≤ outer.1.2 ∧
  outer.2.1 ≤ inner.2.1 ∧ inner.2.2 ≤ outer.2.2

theorem rangesGo_length (pts : List (ℚ × ℚ)) :
    ∀ a b c d, (rangesGo pts a b c d).length = pts.length := by
  induction pts with
  | nil => intro a b c d; rfl
  | cons p rest ih =>
    intro a b c d
    obtain ⟨x, y⟩ := p
    simp [rangesGo, ih]

theorem mkPoints_length (pts : List (ℚ × ℚ × ℚ)) :
    (mkPoints pts).length = pts.length := by
  simp [mkPoints, sortedSamples, List.length_insertionSort]

theorem mkTimes_length (pts : List (ℚ × ℚ × ℚ)) :
    (mkTimes pts).length = pts.length := by
  simp [mkTimes, sortedSamples, List.length_insertionSort]

theorem mkRanges_length (pts : List (ℚ × ℚ × ℚ)) :
    (mkRanges pts).length = pts.length := by
  rw [mkRanges, rangesGo_length, mkPoints_length]

theorem new_eq_some {pts : List (ℚ × ℚ × ℚ)} {d : XyTimeData} (h : new pts = some d) :
    d.points = mkPoints pts ∧ d.ranges = mkRanges pts ∧ d.times = mkTimes pts ∧
      d.state = ⟨none, none, 1⟩ ∧ pts ≠ [] := by
  unfold new at h
  split at h
  · exact absurd h (by simp)
  · rename_i r hgl
    cases h
    refine ⟨rfl, rfl, rfl, rfl, ?_⟩
    intro hnil
    subst hnil
    simp [mkRanges, mkPoints, sortedSamples, rangesGo] at hgl

theorem new_eq_none_iff (pts : List (ℚ × ℚ × ℚ)) : new pts = none ↔ pts = [] := by
  constructor
  · intro hnone
    unfold new at hnone
    split at hnone
    · rename_i hgl
      have hlen : (mkRanges pts).length = 0 := by
        rw [List.getLast?_eq_none_iff.mp hgl]
        rfl
      rw [mkRanges_length] at hlen
      exact List.length_eq_zero.mp hlen
    · cases hnone
  · intro h
    subst h
    rfl

theorem binarySearchGo_lt (xs : List ℚ) (t : ℚ) :
    ∀ fuel base size, 1 ≤ size → base + size ≤ xs.length →
      binarySearchGo xs t fuel base size < xs.length := by
  intro fuel
  induction fuel with
  | zero =>
    intro base size h1 h2
    simp only [binarySearchGo]
    omega
  | succ n ih =>
    intro base size h1 h2
    simp only [binarySearchGo]
    split
    · omega
    · rename_i hsz
      split
      · exact ih base (size - size / 2) (by omega) (by omega)
      · exact ih (base + size / 2) (size - size / 2) (by omega) (by omega)

theorem binary_search_by_ok_lt {xs : List ℚ} {t : ℚ} {i : ℕ}
    (h : binary_search_by xs t = Except.ok i) : i < xs.length := by
  unfold binary_search_by at h
  split at h
  · cases h
  · rename_i hlen
    have hb := binarySearchGo_lt xs t xs.length 0 xs.length (by omega) (by omega)
    dsimp only at h
    split at h
    · cases h
      exact hb
    · cases h
    · cases h

theorem binary_search_by_error_le {xs : List ℚ} {t : ℚ} {i : ℕ}
    (h : binary_search_by xs t = Except.error i) : i ≤ xs.length := by
  unfold binary_search_by at h
  split at h
  · cases h
    omega
  · rename_i hlen
    have hb := binarySearchGo_lt xs t xs.length 0 xs.length (by omega) (by omega)
    dsimp only at h
    split at h
    · cases h
    · cases h
      omega
    · cases h
      omega

theorem binary_search_by_error_end {xs : List ℚ} {t : ℚ}
    (h : binary_search_by xs t = Except.error xs.length) (hne : xs ≠ []) :
    ∃ last, xs.getLast? = some last ∧ last < t := by
  unfold binary_search_by at h
  split at h
  · rename_i hlen
    exact absurd (List.length_eq_zero.mp hlen) hne
  · rename_i hlen
    have hb := binarySearchGo_lt xs t xs.length 0 xs.length (by omega) (by omega)
    dsimp only at h
    split at h
    · cases h
    · rename_i hcmp
      injection h with h
      have hbase : binarySearchGo xs t xs.length 0 xs.length = xs.length - 1 := by omega
      rw [hbase] at hcmp
      have hvlt : xs.length - 1 < xs.length := by omega
      have hv : xs[xs.length - 1]? = some (xs.getD (xs.length - 1) 0) := by
        rw [List.getD_eq_getElem?_getD]
        cases hx : xs[xs.length - 1]? with
        | none => rw [List.getElem?_eq_none_iff] at hx; omega
        | some v => rfl
      exact ⟨xs.getD (xs.length - 1) 0, by rw [List.getLast?_eq_getElem?]; exact hv,
        compare_lt_iff_lt.mp hcmp⟩
    · rename_i hcmp
      injection h with h
      omega

theorem time_index_lt {d : XyTimeData} {t last : ℚ}
    (hlast : d.times.getLast? = some last) (hle : t ≤ last) :
    time_index d t < d.times.length := by
  have hne : d.times ≠ [] := by
    intro h
    rw [h] at hlast
    cases hlast
  unfold time_index
  cases hbs : binary_search_by d.times t with
  | ok i => exact binary_search_by_ok_lt hbs
  | error i =>
    have hle' := binary_search_by_error_le hbs
    rcases Nat.lt_or_ge i d.times.length with hlt | hge
    · exact lt_of_le_of_lt (Nat.min_le_right _ _) hlt
    · have hieq : i = d.times.length := by omega
      subst hieq
      obtain ⟨v, hv, hvt⟩ := binary_search_by_error_end hbs hne
      rw [hlast] at hv
      injection hv with hv
      subst hv
      exact absurd hle (not_le.mpr hvt)

theorem current_time_le_end {d : XyTimeData} {now t0 ts te r : ℚ} {d' : XyTimeData}
    (hp : d.state.playback_start = some t0)
    (hh : start_time d = some ts) (hl : end_time d = some te)
    (h : current_time now d = some (r, d')) :
    r ≤ te ∧ d'.times = d.times ∧ d'.points = d.points ∧ d'.ranges = d.ranges := by
  unfold current_time at h
  rw [hp, hh, hl] at h
  dsimp only at h
  split at h
  · rename_i hgt
    cases h
    exact ⟨by linarith, rfl, rfl, rfl⟩
  · cases h
    exact ⟨le_refl te, rfl, rfl, rfl⟩

theorem StateInv.mono {now now' : ℚ} {s : XyTimeState}
    (h : StateInv now s) (hle : now ≤ now') : StateInv now' s :=
  ⟨fun t0 ht => le_trans (h.1 t0 ht) hle,
   fun tp ht => le_trans (h.2.1 tp ht) hle,
   h.2.2⟩

theorem current_time_eq (d : XyTimeData) (now t0 ts te : ℚ)
    (hp : d.state.playback_start = some t0)
    (hh : start_time d = some ts) (hl : end_time d = some te) :
    current_time now d =
      if te - ts > MIN_DELTA + d.state.playback_speed * pauseElapsed now d.state t0
      then some (MIN_DELTA + d.state.playback_speed * pauseElapsed now d.state t0 + ts, d)
      else some (te, { d with state := { d.state with playback_start := none } }) := by
  unfold current_time pauseElapsed
  rw [hp, hh, hl]

theorem current_time_none_left {d : XyTimeData} {t0 : ℚ} (now : ℚ)
    (hp : d.state.playback_start = some t0) (h : start_time d = none) :
    current_time now d = none := by
  unfold current_time
  rw [hp, h]

theorem current_time_none_right {d : XyTimeData} {t0 ts : ℚ} (now : ℚ)
    (hp : d.state.playback_start = some t0) (hh : start_time d = some ts)
    (h : end_time d = none) :
    current_time now d = none := by
  unfold current_time
  rw [hp, hh, h]

theorem pauseElapsed_none {s : XyTimeState} (now t0 : ℚ) (h : s.pause_start = none) :
    pauseElapsed now s t0 = durationSince now t0 := by
  unfold pauseElapsed
  rw [h]

theorem pauseElapsed_some {s : XyTimeState} (now t0 tp : ℚ) (h : s.pause_start = some tp) :
    pauseElapsed now s t0 = durationSince tp t0 := by
  unfold pauseElapsed
  rw [h]

/-- C1 (counterexample): on the spec's example samples `[(0,0,0), (1,1,1),
(2,0,2)]` the query 5.0 does not yield index 2. The error branch computes
`self.points.len().min(index)` = `min 3 3` = 3, one past the last valid
index, not a clamp to `len - 1`. -/
theorem xytime_C1_counterexample :
    queryIndexAt 5 = some 3 ∧ ¬ queryIndexAt 5 = some 2 := by
  refine ⟨?_, ?_⟩ <;> with_unfolding_all decide

/-- C1 (amended): an exact match returns the matching index, and a
no-match query returns the raw insertion point reported by the binary
search: the clamp `points.len().min(index)` is a no-op because an
insertion point never exceeds the length. Consequently the example query
0.5 yields 1 (the insertion point, one past the greatest index with
timestamp ≤ 0.5) and the query 5.0 yields 3 (the length itself, one past
the last valid index), not 2. -/
theorem xytime_C1_amended (pts : List (ℚ × ℚ × ℚ)) (d : XyTimeData) (t : ℚ)
    (hnew : new pts = some d) :
    (∀ i, binary_search_by d.times t = Except.ok i → time_index d t = i) ∧
    (∀ i, binary_search_by d.times t = Except.error i → time_index d t = i) ∧
    queryIndexAt (1 / 2) = some 1 ∧ queryIndexAt 5 = some 3 := by
  obtain ⟨hpts, -, htimes, -, -⟩ := new_eq_some hnew
  refine ⟨?_, ?_, ?_, ?_⟩
  · intro i hi
    unfold time_index
    rw [hi]
  · intro i hi
    have hle := binary_search_by_error_le hi
    unfold time_index
    rw [hi]
    dsimp only
    have hplen : d.points.length = d.times.length := by
      rw [hpts, htimes, mkPoints_length, mkTimes_length]
    rw [hplen]
    omega
  · with_unfolding_all decide
  · with_unfolding_all decide

/-- C1 (witness): the amended statement evaluated on the example chart. -/
theorem xytime_C1_witness :
    queryIndexAt (1 / 2) = some 1 ∧ queryIndexAt 5 = some 3 :=
  (xytime_C1_amended [(0, 0, 0), (1, 1, 1), (2, 0, 2)] exampleChart 5
    (by with_unfolding_all decide)).2.2

/-- C8: construction on an empty sample sequence fails fast (the
`ranges.last().unwrap()` panic, modelled as `none`) — and only then — and
the timeline-start/timeline-end accessors are fatal (`unwrap` panics,
modelled as `none`) on a zero-length series rather than recoverable. -/
theorem xytime_C8 (pts : List (ℚ × ℚ × ℚ)) (d : XyTimeData) :
    (new pts = none ↔ pts = []) ∧
    (d.times = [] → start_time d = none ∧ end_time d = none) := by
  refine ⟨new_eq_none_iff pts, ?_⟩
  intro h
  unfold start_time end_time
  rw [h]
  exact ⟨rfl, rfl⟩

/-- C8 (witness): the statement evaluated at the empty input. -/
theorem xytime_C8_witness :
    new ([] : List (ℚ × ℚ × ℚ)) = none ∧
      start_time emptyChart = none ∧ end_time emptyChart = none :=
  ⟨(xytime_C8 [] emptyChart).1.mpr rfl, ((xytime_C8 [] emptyChart).2 rfl).1,
   ((xytime_C8 [] emptyChart).2 rfl).2⟩

/-- C9 (counterexample): seeking to a negative time is not panic-free:
`Duration::from_secs_f32(-1.0)` panics (modelled as `none`), so `set_time`
does fail for a negative real argument, contrary to the claim. -/
theorem xytime_C9_counterexample :
    set_time 0 (-1) ⟨none, none, 1⟩ = none := by
  with_unfolding_all decide

/-- C9 (amended): whenever seek succeeds it performs no bounds check
against the sample timeline and mutates only the internal instants — the
start instant is rebased to `now - t` and the speed factor is preserved —
and it succeeds exactly on the panic-free range: `0 ≤ t`, `t` below the
2^64-second `Duration` overflow bound, and `t` not exceeding the current
instant's offset from the monotonic epoch. Outside that range seek panics
(`Duration::from_secs_f32` on a negative or overflowing time,
`Instant - Duration` on an epoch underflow), so it is not failure-free for
every real argument. -/
theorem xytime_C9_amended (s : XyTimeState) (now t : ℚ) :
    (∀ s', set_time now t s = some s' →
      s'.playback_start = some (now - t) ∧ s'.playback_speed = s.playback_speed) ∧
    (0 ≤ t → t < DURATION_OVERFLOW → 0 ≤ now - t → (set_time now t s).isSome = true) ∧
    (t < 0 → set_time now t s = none) ∧
    (DURATION_OVERFLOW ≤ t → set_time now t s = none) ∧
    (now - t < 0 → set_time now t s = none) := by
  refine ⟨?_, ?_, ?_, ?_, ?_⟩
  · intro s' hs'
    unfold set_time at hs'
    split at hs'
    · cases hs'
    · split at hs'
      · cases hs'
      · dsimp only at hs'
        cases hps : s.playback_start with
        | some t0 =>
          rw [hps] at hs'
          cases hs'
          exact ⟨rfl, rfl⟩
        | none =>
          rw [hps] at hs'
          cases hs'
          exact ⟨rfl, rfl⟩
  · intro ht hlt hnow
    unfold set_time
    rw [if_neg (not_or.mpr ⟨not_lt.mpr ht, not_le.mpr hlt⟩), if_neg (not_lt.mpr hnow)]
    dsimp only
    cases hps : s.playback_start with
    | some t0 => rfl
    | none => rfl
  · intro ht
    unfold set_time
    rw [if_pos (Or.inl ht)]
  · intro ht
    unfold set_time
    rw [if_pos (Or.inr ht)]
  · intro ht
    unfold set_time
    split
    · rfl
    · rfl

/-- C9 (witness): the amended statement evaluated at concrete seeks: a
successful seek to 3 at wall clock 10 rebases the start instant and keeps
the speed, while a negative time, an overflowing time and a time past the
epoch offset all panic. -/
theorem xytime_C9_witness :
    ((XyTimeState.mk (some (10 - 3)) (some 10) 1).playback_start = some ((10 : ℚ) - 3) ∧
      (XyTimeState.mk (some (10 - 3)) (some 10) 1).playback_speed = (1 : ℚ)) ∧
    (set_time 10 3 ⟨none, none, 1⟩).isSome = true ∧
    set_time 10 (-1) ⟨none, none, 1⟩ = none ∧
    set_time 10 DURATION_OVERFLOW ⟨none, none, 1⟩ = none ∧
    set_time 10 100 ⟨none, none, 1⟩ = none :=
  ⟨(xytime_C9_amended ⟨none, none, 1⟩ 10 3).1 ⟨some (10 - 3), some 10, 1⟩
      (by norm_num [set_time, DURATION_OVERFLOW]),
   (xytime_C9_amended ⟨none, none, 1⟩ 10 3).2.1 (by norm_num)
     (by norm_num [DURATION_OVERFLOW]) (by norm_num),
   (xytime_C9_amended ⟨none, none, 1⟩ 10 (-1)).2.2.1 (by norm_num),
   (xytime_C9_amended ⟨none, none, 1⟩ 10 DURATION_OVERFLOW).2.2.2.1 (le_refl _),
   (xytime_C9_amended ⟨none, none, 1⟩ 10 100).2.2.2.2 (by norm_num)⟩

/-- C10: on every draw call while playback is enabled (in any playback
state over a constructed chart), the computed index is strictly below the
number of points and the number of ranges, so the prefix slice
`points[..=index]` and the access `ranges[index]` are in bounds: the time
fed to the binary search never exceeds the last sorted timestamp. -/
theorem xytime_C10 (pts : List (ℚ × ℚ × ℚ)) (d : XyTimeData) (s : XyTimeState)
    (now : ℚ) (i : ℕ) (hnew : new pts = some d)
    (hdraw : drawIndex now { d with state := s } = some i) :
    i < d.points.length ∧ i < d.ranges.length := by
  obtain ⟨hpts, hranges, htimes, -, hne⟩ := new_eq_some hnew
  have hlen : d.points.length = d.times.length := by
    rw [hpts, htimes, mkPoints_length, mkTimes_length]
  have hrlen : d.ranges.length = d.times.length := by
    rw [hranges, htimes, mkRanges_length, mkTimes_length]
  have htne : d.times ≠ [] := by
    intro h
    have hml := mkTimes_length pts
    rw [← htimes, h] at hml
    exact hne (List.length_eq_zero.mp hml.symm)
  unfold drawIndex at hdraw
  dsimp only at hdraw
  cases hsp : s.playback_start with
  | none =>
    rw [hsp] at hdraw
    cases hdraw
  | some t0 =>
    rw [hsp] at hdraw
    obtain ⟨⟨r, d'⟩, hct, hi⟩ := Option.map_eq_some'.mp hdraw
    obtain ⟨te, hte⟩ := Option.isSome_iff_exists.mp (List.getLast?_isSome.mpr htne)
    have hts : ∃ ts, d.times.head? = some ts := by
      cases hx : d.times.head? with
      | none => exact absurd (List.head?_eq_none_iff.mp hx) htne
      | some v => exact ⟨v, rfl⟩
    obtain ⟨ts, hts⟩ := hts
    have hcle := current_time_le_end
      (show ({ d with state := s } : XyTimeData).state.playback_start = some t0 from hsp)
      hts hte hct
    dsimp only at hi
    subst hi
    have hlast : d'.times.getLast? = some te := by
      rw [hcle.2.1]
      exact hte
    have hlt := time_index_lt hlast hcle.1
    have hdlen : d'.times.length = d.times.length := by
      rw [hcle.2.1]
    rw [hdlen] at hlt
    exact ⟨by rw [hlen]; exact hlt, by rw [hrlen]; exact hlt⟩

/-- C10 (witness): drawing the example chart at wall clock 5 (past the
end) yields index 2, in bounds. -/
theorem xytime_C10_witness :
    (2 : ℕ) < exampleChart.points.length ∧ (2 : ℕ) < exampleChart.ranges.length :=
  xytime_C10 [(0, 0, 0), (1, 1, 1), (2, 0, 2)] exampleChart ⟨some 0, none, 1⟩ 5 2
    (by with_unfolding_all decide) (by with_unfolding_all decide)

/-- C2 (counterexample): changing the speed mid-playback rescales the
already-elapsed duration. On the 0..10 chart started at wall clock 0, the
position read at wall clock 1 is `1 + MIN_DELTA` at speed 1, but after
`set_playback_speed 2` the read at the very same wall instant is
`2 + MIN_DELTA`: the reported position jumps when the factor changes. -/
theorem xytime_C2_counterexample :
    readAtSpeed 1 = some (1 + MIN_DELTA) ∧ readAtSpeed 2 = some (2 + MIN_DELTA) ∧
      (1 + MIN_DELTA : ℚ) ≠ 2 + MIN_DELTA := by
  refine ⟨?_, ?_, by norm_num [MIN_DELTA]⟩ <;>
    · simp only [readAtSpeed, spanChart, set_playback_speed, start_playback, current_time,
        start_time, end_time, durationSince, MIN_DELTA]
      norm_num

/-- C2 (amended): `set_playback_speed` stores the factor and leaves the
instants untouched; at the next read the entire wall-clock elapsed
duration accumulated since the start instant is multiplied by the new
factor (position = timeline start + MIN_DELTA + factor · elapsed, clamped
to the timeline end), so a speed change mid-playback rescales the
already-elapsed duration and the reported position can jump. -/
theorem xytime_C2_amended (d : XyTimeData) (now t0 f ts te : ℚ)
    (hp : d.state.playback_start = some t0) (hq : d.state.pause_start = none)
    (hh : start_time d = some ts) (hl : end_time d = some te) :
    (set_playback_speed f d.state).playback_start = some t0 ∧
    (set_playback_speed f d.state).pause_start = none ∧
    (set_playback_speed f d.state).playback_speed = f ∧
    (current_time now { d with state := set_playback_speed f d.state }).map Prod.fst =
      some (if te - ts > MIN_DELTA + f * durationSince now t0
            then MIN_DELTA + f * durationSince now t0 + ts
            else te) := by
  refine ⟨hp, hq, rfl, ?_⟩
  rw [current_time_eq { d with state := set_playback_speed f d.state } now t0 ts te hp hh hl]
  rw [show pauseElapsed now ({ d with state := set_playback_speed f d.state } :
        XyTimeData).state t0 = durationSince now t0 from pauseElapsed_none now t0 hq]
  dsimp only [set_playback_speed]
  split <;> rfl

/-- C2 (witness): the amended statement evaluated on the 0..10 chart,
started at wall clock 0, factor set to 2, read at wall clock 1. -/
theorem xytime_C2_witness :
    (set_playback_speed 2 (XyTimeState.mk (some 0) none 1)).playback_start = some 0 ∧
    (set_playback_speed 2 (XyTimeState.mk (some 0) none 1)).pause_start = none ∧
    (set_playback_speed 2 (XyTimeState.mk (some 0) none 1)).playback_speed = 2 ∧
    (current_time 1 { spanChart with
        state := set_playback_speed 2 (XyTimeState.mk (some 0) none 1) }).map Prod.fst =
      some (if (10 : ℚ) - 0 > MIN_DELTA + 2 * durationSince 1 0
            then MIN_DELTA + 2 * durationSince 1 0 + 0
            else 10) :=
  xytime_C2_amended { spanChart with state := ⟨some 0, none, 1⟩ } 1 0 2 0 10
    rfl rfl rfl rfl

/-- C3 (counterexample): seeking does not make the next read yield the
seek argument for every speed and timeline. On the 0..10 chart with speed
factor 2, `set_time`-seeking to 1 at wall clock 10 makes the immediate
next read report `2 + MIN_DELTA`, not 1: the seek argument is an elapsed
duration that still gets speed-scaled (and epsilon-floored) at read
time. -/
theorem xytime_C3_counterexample :
    seekReadPosition = some (2 + MIN_DELTA) ∧ some (2 + MIN_DELTA : ℚ) ≠ some (1 : ℚ) := by
  refine ⟨?_, by norm_num [MIN_DELTA]⟩
  simp only [seekReadPosition, spanChart, set_playback_speed, set_time, current_time,
    start_time, end_time, durationSince, MIN_DELTA, DURATION_OVERFLOW]
  norm_num

/-- C3 (amended): `set_time now t` (with `t ≥ 0`; negative t panics)
rebases the start instant to `now - t`, preserves the speed factor, and a
read at the same instant computes elapsed = t in every prior state, hence
reports timeline start + MIN_DELTA + speed · t, clamped to the timeline
end — which equals t only for speed 1, timeline start 0 and MIN_DELTA
ignored; when the clock was stopped, the seek leaves it paused at `now`
(so `is_playing` stays false) rather than playing. -/
theorem xytime_C3_amended (d : XyTimeData) (now t ts te : ℚ) (s' : XyTimeState)
    (ht : 0 ≤ t) (hh : start_time d = some ts) (hl : end_time d = some te)
    (hseek : set_time now t d.state = some s') :
    s'.playback_start = some (now - t) ∧
    s'.playback_speed = d.state.playback_speed ∧
    (d.state.playback_start = none → s'.pause_start = some now ∧ is_playing s' = false) ∧
    (current_time now { d with state := s' }).map Prod.fst =
      some (if te - ts > MIN_DELTA + d.state.playback_speed * t
            then MIN_DELTA + d.state.playback_speed * t + ts
            else te) := by
  have hds : durationSince now (now - t) = t := by
    unfold durationSince
    rw [sub_sub_cancel]
    exact max_eq_left ht
  have hg1 : ¬ (t < 0 ∨ DURATION_OVERFLOW ≤ t) := by
    intro hg
    unfold set_time at hseek
    rw [if_pos hg] at hseek
    cases hseek
  have hg2 : ¬ (now - t < 0) := by
    intro hg
    unfold set_time at hseek
    rw [if_neg hg1, if_pos hg] at hseek
    cases hseek
  unfold set_time at hseek
  rw [if_neg hg1, if_neg hg2] at hseek
  dsimp only at hseek
  cases hsp : d.state.playback_start with
  | some u =>
    rw [hsp] at hseek
    cases hq : d.state.pause_start with
    | some v =>
      rw [hq] at hseek
      cases hseek
      refine ⟨rfl, rfl, ?_, ?_⟩
      · intro habs
        simp at habs
      · dsimp only
        rw [current_time_eq
            { d with state := ⟨some (now - t), some now, d.state.playback_speed⟩ }
            now (now - t) ts te rfl hh hl,
          pauseElapsed_some now (now - t) now rfl, hds]
        dsimp only
        split <;> rfl
    | none =>
      rw [hq] at hseek
      cases hseek
      refine ⟨rfl, rfl, ?_, ?_⟩
      · intro habs
        simp at habs
      · dsimp only
        rw [current_time_eq
            { d with state := ⟨some (now - t), none, d.state.playback_speed⟩ }
            now (now - t) ts te rfl hh hl,
          pauseElapsed_none now (now - t) rfl, hds]
        dsimp only
        split <;> rfl
  | none =>
    rw [hsp] at hseek
    cases hseek
    refine ⟨rfl, rfl, fun _ => ⟨rfl, rfl⟩, ?_⟩
    rw [current_time_eq
        { d with state := ⟨some (now - t), some now, d.state.playback_speed⟩ }
        now (now - t) ts te rfl hh hl,
      pauseElapsed_some now (now - t) now rfl, hds]
    dsimp only
    split <;> rfl

/-- C3 (witness): the amended statement evaluated on the 0..10 chart with
speed 2, stopped, seeking to 1 at wall clock 10. -/
theorem xytime_C3_witness :
    (XyTimeState.mk (some (10 - 1)) (some 10) 2).playback_start = some ((10 : ℚ) - 1) ∧
    (XyTimeState.mk (some (10 - 1)) (some 10) 2).playback_speed = (2 : ℚ) ∧
    ((XyTimeState.mk (none : Option ℚ) (none : Option ℚ) (2 : ℚ)).playback_start = none →
      (XyTimeState.mk (some ((10 : ℚ) - 1)) (some (10 : ℚ)) (2 : ℚ)).pause_start = some 10 ∧
        is_playing ⟨some (10 - 1), some 10, 2⟩ = false) ∧
    (current_time 10 { { spanChart with state := ⟨none, none, 2⟩ } with
        state := (⟨some (10 - 1), some 10, 2⟩ : XyTimeState) }).map Prod.fst =
      some (if (10 : ℚ) - 0 > MIN_DELTA + 2 * 1
            then MIN_DELTA + 2 * 1 + 0
            else 10) :=
  xytime_C3_amended { spanChart with state := ⟨none, none, 2⟩ } 10 1 0 10
    ⟨some (10 - 1), some 10, 2⟩ (by norm_num) rfl rfl
    (by norm_num [set_time, DURATION_OVERFLOW])

/-- C4: for a running, unpaused clock over a chart with timeline start
`ts` and end `te`, when `MIN_DELTA` plus the speed-scaled elapsed time
reaches or exceeds the span `te - ts`, the read returns exactly `te` and
clears `playback_start` (so `is_playing` is false afterwards); while the
result is still strictly before `te`, it returns
`MIN_DELTA + speed · elapsed + ts` and leaves the object unchanged. -/
theorem xytime_C4 (d : XyTimeData) (now t0 ts te : ℚ)
    (hp : d.state.playback_start = some t0) (hq : d.state.pause_start = none)
    (hh : start_time d = some ts) (hl : end_time d = some te) :
    (te - ts ≤ MIN_DELTA + d.state.playback_speed * durationSince now t0 →
      current_time now d =
        some (te, { d with state := { d.state with playback_start := none } }) ∧
      is_playing { d.state with playback_start := none } = false) ∧
    (MIN_DELTA + d.state.playback_speed * durationSince now t0 < te - ts →
      current_time now d =
        some (MIN_DELTA + d.state.playback_speed * durationSince now t0 + ts, d)) := by
  have hred := current_time_eq d now t0 ts te hp hh hl
  rw [pauseElapsed_none now t0 hq] at hred
  constructor
  · intro hdone
    rw [hred, if_neg (not_lt.mpr hdone)]
    exact ⟨rfl, rfl⟩
  · intro hrun
    rw [hred, if_pos hrun]

/-- C4 (witness): the example chart playing since wall clock 0, read at
wall clock 5, past the 0..2 timeline: the read returns 2 and stops. -/
theorem xytime_C4_witness :
    current_time 5 playingChart =
      some (2, { playingChart with
        state := { playingChart.state with playback_start := none } }) ∧
    is_playing { playingChart.state with playback_start := none } = false :=
  (xytime_C4 playingChart 5 0 0 2 rfl rfl rfl rfl).1
    (by norm_num [MIN_DELTA, durationSince, playingChart, exampleChart])

/-- C5: pausing with `toggle_playback` and resuming with a second
`toggle_playback` advances the recorded start instant by exactly the
paused duration, ends unpaused, and the position reported right after the
resume equals the position reported at the pause instant. -/
theorem xytime_C5 (d : XyTimeData) (t0 tp now2 : ℚ)
    (h0 : d.state.playback_start = some t0) (h1 : d.state.pause_start = none)
    (h2 : tp ≤ now2) :
    (toggle_playback now2 (toggle_playback tp d.state)).playback_start
        = some (t0 + (now2 - tp)) ∧
    (toggle_playback now2 (toggle_playback tp d.state)).pause_start = none ∧
    (current_time now2
        { d with state := toggle_playback now2 (toggle_playback tp d.state) }).map Prod.fst
      = (current_time tp d).map Prod.fst := by
  have hds : durationSince now2 tp = now2 - tp := max_eq_left (sub_nonneg.mpr h2)
  have hs1 : toggle_playback tp d.state
      = ⟨some t0, some tp, d.state.playback_speed⟩ := by
    unfold toggle_playback
    rw [h0, h1]
  have hs2 : toggle_playback now2 (toggle_playback tp d.state)
      = ⟨some (t0 + (now2 - tp)), none, d.state.playback_speed⟩ := by
    rw [hs1]
    unfold toggle_playback
    dsimp only
    rw [hds]
  rw [hs2]
  refine ⟨rfl, rfl, ?_⟩
  cases hh : d.times.head? with
  | none =>
    have hL : current_time now2
        { d with state := ⟨some (t0 + (now2 - tp)), none, d.state.playback_speed⟩ }
          = none :=
      current_time_none_left now2 rfl hh
    rw [hL, current_time_none_left tp h0 hh]
  | some ts =>
    cases hl : d.times.getLast? with
    | none =>
      have hL : current_time now2
          { d with state := ⟨some (t0 + (now2 - tp)), none, d.state.playback_speed⟩ }
            = none :=
        current_time_none_right now2 rfl hh hl
      rw [hL, current_time_none_right tp h0 hh hl]
    | some te =>
      rw [current_time_eq d tp t0 ts te h0 hh hl, pauseElapsed_none tp t0 h1]
      rw [current_time_eq
          { d with state := ⟨some (t0 + (now2 - tp)), none, d.state.playback_speed⟩ }
          now2 (t0 + (now2 - tp)) ts te rfl hh hl,
        pauseElapsed_none now2 (t0 + (now2 - tp)) rfl]
      have helap : durationSince now2 (t0 + (now2 - tp)) = durationSince tp t0 := by
        unfold durationSince
        congr 1
        ring
      rw [helap]
      dsimp only
      split <;> rfl

/-- C5 (witness): the example chart playing since wall clock 0, paused at
wall clock 1, resumed at wall clock 3: the start instant moved forward by
the 2 seconds spent paused and the reported position agrees with the one
at the pause instant. -/
theorem xytime_C5_witness :
    (toggle_playback 3 (toggle_playback 1 playingChart.state)).playback_start
        = some ((0 : ℚ) + (3 - 1)) ∧
    (toggle_playback 3 (toggle_playback 1 playingChart.state)).pause_start = none ∧
    (current_time 3
        { playingChart with
          state := toggle_playback 3 (toggle_playback 1 playingChart.state) }).map Prod.fst
      = (current_time 1 playingChart).map Prod.fst :=
  xytime_C5 playingChart 0 1 3 rfl rfl (by norm_num)

theorem rangesGo_adjacent (pts : List (ℚ × ℚ)) :
    ∀ (mx my Mx My : ℚ) (i : ℕ) (r1 r2 : (ℚ × ℚ) × (ℚ × ℚ)),
      (rangesGo pts mx my Mx My)[i]? = some r1 →
      (rangesGo pts mx my Mx My)[i + 1]? = some r2 →
      rangeContains r2 r1 := by
  induction pts with
  | nil =>
    intro mx my Mx My i r1 r2 h1 h2
    simp [rangesGo] at h1
  | cons p rest ih =>
    intro mx my Mx My i r1 r2 h1 h2
    obtain ⟨x, y⟩ := p
    cases i with
    | zero =>
      simp only [rangesGo, List.getElem?_cons_zero, Option.some.injEq] at h1
      subst h1
      cases rest with
      | nil =>
        simp [rangesGo] at h2
      | cons q rest2 =>
        obtain ⟨qx, qy⟩ := q
        simp only [rangesGo, List.getElem?_cons_succ, List.getElem?_cons_zero,
          Option.some.injEq] at h2
        subst h2
        exact ⟨min_le_left _ _, le_max_left _ _, min_le_left _ _, le_max_left _ _⟩
    | succ j =>
      simp only [rangesGo, List.getElem?_cons_succ] at h1 h2
      exact ih _ _ _ _ j r1 r2 h1 h2

/-- C6: bounds widening invariant. For every input sample sequence and
every index i > 0 of the bounds sequence computed at construction,
`ranges[i]` contains `ranges[i-1]`: the running min can only decrease and
the running max only increase, for x and for y. -/
theorem xytime_C6 (pts : List (ℚ × ℚ × ℚ)) (d : XyTimeData) (i : ℕ)
    (r1 r2 : (ℚ × ℚ) × (ℚ × ℚ)) (hnew : new pts = some d) (hi : 0 < i)
    (h1 : d.ranges[i - 1]? = some r1) (h2 : d.ranges[i]? = some r2) :
    rangeContains r2 r1 := by
  obtain ⟨-, hranges, -, -, -⟩ := new_eq_some hnew
  rw [hranges, mkRanges] at h1 h2
  obtain ⟨j, rfl⟩ : ∃ j, i = j + 1 := ⟨i - 1, by omega⟩
  simp only [Nat.add_sub_cancel] at h1
  exact rangesGo_adjacent (mkPoints pts) _ _ _ _ j r1 r2 h1 h2

/-- C6 (witness): on the example chart the bounds at index 1 contain the
bounds at index 0. -/
theorem xytime_C6_witness :
    rangeContains ((0, 1), (0, 1)) ((0, 0), (0, 0)) :=
  xytime_C6 [(0, 0, 0), (1, 1, 1), (2, 0, 2)] exampleChart 1
    ((0, 0), (0, 0)) ((0, 1), (0, 1))
    (by with_unfolding_all decide) (by norm_num) rfl rfl

theorem StateInv_mk (now : ℚ) (p q : Option ℚ) (f : ℚ)
    (h1 : ∀ a, p = some a → a ≤ now) (h2 : ∀ b, q = some b → b ≤ now)
    (h3 : ∀ a b, p = some a → q = some b → a ≤ b) :
    StateInv now ⟨p, q, f⟩ := ⟨h1, h2, h3⟩

/-- C7 (counterexample): the claimed invariant — `pause_start` present
implies `playback_start` present — fails on a reachable state: construct,
seek to elapsed 5 at wall clock 10 (now paused), then read the position on
the example chart whose 0..2 span is already exceeded: the mutating read
clears `playback_start` but leaves `pause_start = some 10`. -/
theorem xytime_C7_counterexample :
    Reachable 10 ⟨none, some 10, 1⟩ ∧
      (XyTimeState.mk none (some 10) 1).pause_start.isSome = true ∧
      (XyTimeState.mk none (some 10) 1).playback_start = none := by
  refine ⟨?_, rfl, rfl⟩
  have r0 : Reachable 10 ⟨none, none, 1⟩ := Reachable.construct 10
  have r1 : Reachable 10 ⟨some 5, some 10, 1⟩ :=
    Reachable.seek 10 ⟨none, none, 1⟩ 10 5 ⟨some 5, some 10, 1⟩ r0 le_rfl
      (by norm_num [set_time, DURATION_OVERFLOW])
  exact Reachable.read 10 ⟨some 5, some 10, 1⟩ 10
    { exampleChart with state := ⟨some 5, some 10, 1⟩ } 2
    { exampleChart with state := ⟨none, some 10, 1⟩ } r1 le_rfl rfl
    (by with_unfolding_all decide)

/-- C7 (amended): every reachable state satisfies the invariant that does
hold: each stored instant is at most the current wall clock, and whenever
both `playback_start` and `pause_start` are present, the pause instant is
at least the start instant. (The claim's stronger form fails — see the
counterexample — because a completion read while paused clears only
`playback_start`.) -/
theorem xytime_C7_amended (now : ℚ) (s : XyTimeState) (h : Reachable now s) :
    StateInv now s := by
  induction h with
  | construct now =>
    exact StateInv_mk now none none 1
      (fun a ha => by cases ha) (fun b hb => by cases hb)
      (fun a b ha hb => by cases ha)
  | seek now s now' t s' hr hle hset ih =>
    have hg1 : ¬ (t < 0 ∨ DURATION_OVERFLOW ≤ t) := by
      intro hg
      unfold set_time at hset
      rw [if_pos hg] at hset
      cases hset
    have hg2 : ¬ (now' - t < 0) := by
      intro hg
      unfold set_time at hset
      rw [if_neg hg1, if_pos hg] at hset
      cases hset
    have ht : 0 ≤ t := not_lt.mp fun hlt => hg1 (Or.inl hlt)
    unfold set_time at hset
    rw [if_neg hg1, if_neg hg2] at hset
    dsimp only at hset
    cases hsp : s.playback_start with
    | some u =>
      rw [hsp] at hset
      cases hps : s.pause_start with
      | some v =>
        rw [hps] at hset
        dsimp only at hset
        cases hset
        exact StateInv_mk now' (some (now' - t)) (some now') s.playback_speed
          (fun a ha => by cases ha; linarith)
          (fun b hb => by cases hb; exact le_refl _)
          (fun a b ha hb => by cases ha; cases hb; linarith)
      | none =>
        rw [hps] at hset
        dsimp only at hset
        cases hset
        exact StateInv_mk now' (some (now' - t)) none s.playback_speed
          (fun a ha => by cases ha; linarith)
          (fun b hb => by cases hb)
          (fun a b ha hb => by cases hb)
    | none =>
      rw [hsp] at hset
      cases hset
      exact StateInv_mk now' (some (now' - t)) (some now') s.playback_speed
        (fun a ha => by cases ha; linarith)
        (fun b hb => by cases hb; exact le_refl _)
        (fun a b ha hb => by cases ha; cases hb; linarith)
  | start now s now' hr hle ih =>
    exact StateInv_mk now' (some now') none s.playback_speed
      (fun a ha => by cases ha; exact le_refl _)
      (fun b hb => by cases hb)
      (fun a b ha hb => by cases hb)
  | stop now s now' hr hle ih =>
    exact StateInv_mk now' none none s.playback_speed
      (fun a ha => by cases ha) (fun b hb => by cases hb)
      (fun a b ha hb => by cases ha)
  | toggle now s now' hr hle ih =>
    unfold toggle_playback
    cases hsp : s.playback_start with
    | none =>
      exact StateInv_mk now' (some now') none s.playback_speed
        (fun a ha => by cases ha; exact le_refl _)
        (fun b hb => by cases hb)
        (fun a b ha hb => by cases hb)
    | some t0 =>
      cases hps : s.pause_start with
      | none =>
        dsimp only
        exact StateInv_mk now' (some t0) (some now') s.playback_speed
          (fun a ha => by cases ha; exact le_trans (ih.1 t0 hsp) hle)
          (fun b hb => by cases hb; exact le_refl _)
          (fun a b ha hb => by cases ha; cases hb; exact le_trans (ih.1 t0 hsp) hle)
      | some tp =>
        dsimp only
        refine StateInv_mk now' (some (t0 + durationSince now' tp)) none s.playback_speed
          (fun a ha => ?_) (fun b hb => by cases hb) (fun a b ha hb => by cases hb)
        cases ha
        have htp : tp ≤ now' := le_trans (ih.2.1 tp hps) hle
        have ht0 : t0 ≤ tp := ih.2.2 t0 tp hsp hps
        unfold durationSince
        rw [max_eq_left (sub_nonneg.mpr htp)]
        linarith
  | speed now s now' f hr hle ih =>
    exact StateInv_mk now' s.playback_start s.pause_start f
      (fun a ha => le_trans (ih.1 a ha) hle)
      (fun b hb => le_trans (ih.2.1 b hb) hle)
      ih.2.2
  | read now s now' d r d' hr hle hds heq ih =>
    unfold current_time at heq
    cases hsp : d.state.playback_start with
    | none =>
      rw [hsp] at heq
      cases hst : start_time d with
      | none =>
        rw [hst] at heq
        cases heq
      | some ts =>
        rw [hst] at heq
        dsimp only at heq
        cases heq
        rw [hds]
        exact StateInv.mono ih hle
    | some t0 =>
      rw [hsp] at heq
      cases hst : start_time d with
      | none =>
        rw [hst] at heq
        dsimp only at heq
        cases heq
      | some ts =>
        rw [hst] at heq
        cases hen : end_time d with
        | none =>
          rw [hen] at heq
          dsimp only at heq
          cases heq
        | some te =>
          rw [hen] at heq
          dsimp only at heq
          split at heq
          · cases heq
            rw [hds]
            exact StateInv.mono ih hle
          · cases heq
            rw [hds]
            exact StateInv_mk now' none s.pause_start s.playback_speed
              (fun a ha => by cases ha)
              (fun b hb => le_trans (ih.2.1 b hb) hle)
              (fun a b ha hb => by cases ha)

/-- C7 (witness): the amended invariant evaluated on a concrete reachable
state: construction at wall clock 0, then `start_playback` at wall
clock 10. -/
theorem xytime_C7_witness :
    StateInv 10 (start_playback 10 ⟨none, none, 1⟩) :=
  xytime_C7_amended 10 (start_playback 10 ⟨none, none, 1⟩)
    (Reachable.start 0 ⟨none, none, 1⟩ 10 (Reachable.construct 0) (by norm_num))

end XyTime
